import Mathlib

/-!
Verification of the recipe-chatbot repository: a shallow embedding of the
trace-persistence logic of the chat endpoint (backend/main.py), the model
call adapter (backend/utils.py), the labeling tool (labeler/app.py) and the
annotation tool (annotation/annotation.py), together with theorems settling
the specification claims about them.
-/

/-! ### Basic data model (backend/main.py: ChatMessage; spec section 3) -/

/-- One chat message: `ChatMessage` in backend/main.py, a dict with keys
`role` and `content` elsewhere. -/
structure Message where
  role : String
  content : String
deriving Repr, DecidableEq

/-- One trace record, as written by the chat endpoint:
`new_entry = .. ts .. request .. response ..`.  The two optional coding
fields are absent (`none`) when the record is created and are added later
by the annotation tool. `request` and `response` stand for the `messages`
lists inside the corresponding objects. -/
structure TraceRecord where
  ts : String
  request : List Message
  response : List Message
  open_coding : Option String := none
  axial_coding_code : Option String := none
deriving Repr, DecidableEq

/-! ### Python string primitives used by the code -/

/-- The character-list form of Python `str.strip()` (strip surrounding
whitespace). -/
def pyStripList (cs : List Char) : List Char :=
  ((cs.dropWhile Char.isWhitespace).reverse.dropWhile Char.isWhitespace).reverse

/-- Python `s.strip()`: remove surrounding whitespace. -/
def pyStrip (s : String) : String := ⟨pyStripList s.data⟩

/-- Python `s.endswith(suffix)`. -/
def pyEndsWith (s suffix : String) : Bool := suffix.data.isSuffixOf s.data

/-! ### JSON serialization (json.dumps) of a trace record -/

/-- Escape of one character inside a JSON string literal. -/
def jsonEscapeChar (c : Char) : String :=
  if c = '\\' then "\\\\"
  else if c = '"' then "\\\""
  else if c = '\n' then "\\n"
  else String.singleton c

/-- JSON string literal for `s`. -/
def dumpsString (s : String) : String :=
  "\"" ++ String.join (s.data.map jsonEscapeChar) ++ "\""

/-- Serialized form of one message object. -/
def dumpsMessage (m : Message) : String :=
  "\x7b\"role\": " ++ dumpsString m.role ++ ", \"content\": " ++ dumpsString m.content ++ "\x7d"

/-- Serialized form of a messages list. -/
def dumpsConversation (msgs : List Message) : String :=
  "[" ++ String.intercalate ", " (msgs.map dumpsMessage) ++ "]"

/-- Serialized form of one trace record (optional coding keys only when
present, as json.dumps serializes only the keys the dict holds). -/
def dumpsRecord (r : TraceRecord) : String :=
  "\x7b\"ts\": " ++ dumpsString r.ts
    ++ ", \"request\": \x7b\"messages\": " ++ dumpsConversation r.request ++ "\x7d"
    ++ ", \"response\": \x7b\"messages\": " ++ dumpsConversation r.response ++ "\x7d"
    ++ (match r.open_coding with
        | some oc => ", \"open_coding\": " ++ dumpsString oc
        | none => "")
    ++ (match r.axial_coding_code with
        | some ac => ", \"axial_coding_code\": " ++ dumpsString ac
        | none => "")
    ++ "\x7d"

/-! ### Trace Store: the on-disk shapes the append logic distinguishes
(backend/main.py lines 99-123).

The code classifies the target file by: existence, whether the text strips
to the empty string, and the outcome of `json.loads` on the stripped text
(array, single object, or a parse failure).  `invalid raw` carries the raw
file text (whose stripped form is non-empty and not parseable as JSON); the
other parsed constructors carry the parsed records, which is all the code
uses of them, since it rewrites those files wholesale. -/

inductive TraceFileState where
  /-- the target path does not exist -/
  | absent
  /-- the file exists and its text strips to the empty string -/
  | empty
  /-- the file holds a single JSON object -/
  | singleObj (parsed : TraceRecord)
  /-- the file holds a JSON array of objects -/
  | array (parsed : List TraceRecord)
  /-- the file exists, its stripped text is non-empty and not valid JSON -/
  | invalid (raw : String)
deriving Repr, DecidableEq

/-- The append step of the chat endpoint (backend/main.py lines 99-123):
mirror of the branch structure around `trace_path`.  On a parse failure the
code appends, in append mode, a newline when the *stripped* text
`existing_content` is non-empty and does not end in a newline, then the
serialized record and a final newline. -/
def appendTrace (state : TraceFileState) (new_entry : TraceRecord) : TraceFileState :=
  match state with
  | .absent => .array [new_entry]
  | .empty =>
      -- existing_content strips to "": data = []; data.append(new_entry)
      .array ([] ++ [new_entry])
  | .singleObj parsed =>
      -- parsed is not a list: data = [parsed]; data.append(new_entry)
      .array ([parsed] ++ [new_entry])
  | .array parsed =>
      -- data = parsed; data.append(new_entry)
      .array (parsed ++ [new_entry])
  | .invalid raw =>
      -- except json.JSONDecodeError: open(trace_path, "a") and append a line
      let existing_content := pyStrip raw
      let sep := if existing_content ≠ "" ∧ pyEndsWith existing_content "\n" = false
        then "\n" else ""
      .invalid (raw ++ sep ++ dumpsRecord new_entry ++ "\n")

/-- The records a read of the file recovers, for the three JSON shapes the
spec contract quantifies over (`none` when the file text is not valid JSON). -/
def storedRecords : TraceFileState → Option (List TraceRecord)
  | .absent => some []
  | .empty => some []
  | .singleObj r => some [r]
  | .array rs => some rs
  | .invalid _ => none

/-! ### Sample values used by witnesses -/

/-- A concrete record used by witnesses. -/
def sampleRec1 : TraceRecord :=
  { ts := "20240101_000000_000000"
    request := [⟨"user", "A"⟩]
    response := [⟨"user", "A"⟩, ⟨"assistant", "B"⟩] }

/-- A second concrete record used by witnesses. -/
def sampleRec2 : TraceRecord :=
  { ts := "20240101_000001_000000"
    request := [⟨"user", "C"⟩]
    response := [⟨"user", "C"⟩, ⟨"assistant", "D"⟩] }

/-! ### C1 -/

/-- C1: for every prior on-disk state that is one of the three shapes
(absent or empty, a single JSON object, or a JSON array of objects) —
exactly the states where `storedRecords` is defined — appending a new
record yields a file parsing as the array of all previously stored records
followed by the new one. -/
theorem append_recovers_all_records (s : TraceFileState) (e : TraceRecord)
    (prev : List TraceRecord) (h : storedRecords s = some prev) :
    appendTrace s e = .array (prev ++ [e]) := by
  cases s with
  | absent => simp [storedRecords] at h; simp [appendTrace, ← h]
  | empty => simp [storedRecords] at h; simp [appendTrace, ← h]
  | singleObj r => simp [storedRecords] at h; simp [appendTrace, ← h]
  | array rs => simp [storedRecords] at h; simp [appendTrace, ← h]
  | invalid raw => simp [storedRecords] at h

/-- C1 witness: appending to a file holding a single JSON object yields the
two-element array, original object first, new record second. -/
theorem append_recovers_all_records_witness :
    appendTrace (.singleObj sampleRec1) sampleRec2
      = .array [sampleRec1, sampleRec2] :=
  append_recovers_all_records (.singleObj sampleRec1) sampleRec2 [sampleRec1] rfl

/-! ### Model Call Adapter (backend/utils.py: get_agent_response) -/

/-- The fixed default system prompt, `SYSTEM_PROMPT` in backend/utils.py.
The constant abbreviates the full prompt text to its opening sentences; no
claim depends on the prompt wording, only on this fixed message being the
one inserted at position 0. -/
def SYSTEM_PROMPT : String :=
  "You are a friendly, creative culinary assistant specializing in grilling. "
    ++ "Your goal is to provide clear, complete, and enticing responses that "
    ++ "are accessible to most users."

/-- The system message the adapter prepends. -/
def systemMessage : Message := { role := "system", content := SYSTEM_PROMPT }

/-- backend/utils.py get_agent_response, with the external completion call
abstracted to the content string it returns: ensure a system message at
position 0 (when the history is empty or its first message is not
role=system, prepend the default prompt), then append an assistant message
holding the completion content stripped of surrounding whitespace. -/
def get_agent_response (messages : List Message) (completionContent : String) :
    List Message :=
  let current_messages :=
    match messages with
    | [] => [systemMessage]
    | m :: _ => if m.role ≠ "system" then systemMessage :: messages else messages
  current_messages ++ [{ role := "assistant", content := pyStrip completionContent }]

/-! ### Chat endpoint control flow (backend/main.py: chat_endpoint) -/

/-- Outcome of one request to POST /chat, as seen by the client. -/
inductive HttpOutcome where
  /-- 200 with the updated conversation -/
  | ok (messages : List Message)
  /-- an HTTPException raised by the handler, with status code and detail -/
  | httpError (code : Nat) (detail : String)
  /-- an exception that escaped the handler uncaught -/
  | unhandled (exc : String)
deriving Repr, DecidableEq

/-- backend/main.py chat_endpoint control flow.  `completionResult` stands
for the external completion call inside get_agent_response (`.error e`
when it raises with message `e`); only that call sits inside the handler's
try/except, which re-raises as HTTPException 500 with `str(exc)` as the
detail.  `persistResult` stands for the trace-persistence block as a whole
(`.error e` when it raises an exception the block does not handle, such as
an OS error; the JSONDecodeError fallback handled inside the block is part
of `appendTrace` and never reaches here).  No try/except surrounds the
persistence block, so such an exception escapes the handler. -/
def chat_endpoint (payload : List Message)
    (completionResult : Except String String)
    (persistResult : Except String Unit) : HttpOutcome :=
  match completionResult with
  | .error exc => .httpError 500 exc
  | .ok content =>
      let response := get_agent_response payload content
      match persistResult with
      | .error exc => .unhandled exc
      | .ok _ => .ok response

/-! ### C6 -/

/-- C6: the adapter prepends the fixed default system prompt exactly when
the conversation is empty or its first message is not role=system, and in
every case returns that (possibly prepended) conversation with exactly one
message appended, role assistant, content the completion content trimmed
of surrounding whitespace. -/
theorem agent_response_shape (messages : List Message) (completionContent : String) :
    (messages.head?.map Message.role ≠ some "system" →
      get_agent_response messages completionContent
        = (systemMessage :: messages)
            ++ [{ role := "assistant", content := pyStrip completionContent }])
    ∧ (messages.head?.map Message.role = some "system" →
      get_agent_response messages completionContent
        = messages
            ++ [{ role := "assistant", content := pyStrip completionContent }]) := by
  constructor
  · intro h
    cases messages with
    | nil => simp [get_agent_response]
    | cons m rest =>
        have hr : m.role ≠ "system" := by simpa using h
        simp [get_agent_response, hr]
  · intro h
    cases messages with
    | nil => simp at h
    | cons m rest =>
        have hr : m.role = "system" := by simpa using h
        simp [get_agent_response, hr]

/-- C6 witness: on the empty conversation with completion content
surrounded by whitespace, the adapter returns the system message followed
by one assistant message with the trimmed content. -/
theorem agent_response_shape_witness :
    get_agent_response [] "  Try the salmon.  "
      = [systemMessage, { role := "assistant", content := "Try the salmon." }] := by
  have h := (agent_response_shape [] "  Try the salmon.  ").1 (by decide)
  rw [h]; rfl

/-! ### C2 -/

/-- C2: the error contract of POST /chat.  When the completion call and
the persistence both succeed the endpoint returns 200 with the updated
conversation; when the completion call raises, the endpoint returns 500
with the exception message as detail, whatever persistence would have
done; and when persistence raises after a successful reply, the exception
escapes uncaught, so the request fails and the already-produced reply is
not returned. -/
theorem chat_endpoint_error_contract (payload : List Message)
    (content excA excP : String) (p : Except String Unit) :
    chat_endpoint payload (.ok content) (.ok ())
        = .ok (get_agent_response payload content)
    ∧ chat_endpoint payload (.error excA) p = .httpError 500 excA
    ∧ chat_endpoint payload (.ok content) (.error excP) = .unhandled excP
    ∧ ∀ msgs : List Message, HttpOutcome.unhandled excP ≠ .ok msgs := by
  refine ⟨rfl, rfl, rfl, ?_⟩
  intro msgs h
  cases h

/-! ### String lemmas for the invalid-JSON fallback (C3) -/

/-- A singleton list is a Boolean prefix of `m` exactly when it is the head. -/
theorem isPrefixOf_singleton_iff (c : Char) (m : List Char) :
    [c].isPrefixOf m = true ↔ m.head? = some c := by
  cases m with
  | nil => simp [List.isPrefixOf]
  | cons x xs =>
      rw [List.isPrefixOf_cons₂, List.isPrefixOf_nil_left, Bool.and_true,
        beq_iff_eq, List.head?_cons]
      exact ⟨fun h => by rw [h], fun h => by injection h with h2; rw [h2]⟩

/-- A singleton list is a Boolean suffix of `l` exactly when it is the last
element. -/
theorem isSuffixOf_singleton_iff (c : Char) (l : List Char) :
    [c].isSuffixOf l = true ↔ l.getLast? = some c := by
  show ([c].reverse.isPrefixOf l.reverse) = true ↔ _
  rw [show ([c].reverse) = [c] from rfl, isPrefixOf_singleton_iff, List.head?_reverse]

/-- The head surviving `dropWhile p` does not satisfy `p`. -/
theorem dropWhile_head?_not (p : Char → Bool) :
    ∀ (l : List Char) (c : Char), (l.dropWhile p).head? = some c → p c = false
  | [], c => by simp
  | x :: xs, c => by
      rw [List.dropWhile_cons]
      split
      · exact dropWhile_head?_not p xs c
      · next hx =>
          intro h
          simp only [List.head?_cons, Option.some.injEq] at h
          subst h
          simpa using hx

/-- A stripped string never ends in a newline (strip removes trailing
whitespace; an empty result has no last character at all). -/
theorem pyStrip_endsWith_newline_false (s : String) :
    pyEndsWith (pyStrip s) "\n" = false := by
  rw [Bool.eq_false_iff]
  intro h
  have h1 : (pyStripList s.data).getLast? = some '\n' := by
    rw [← isSuffixOf_singleton_iff]
    exact h
  rw [pyStripList, List.getLast?_reverse] at h1
  have h2 := dropWhile_head?_not Char.isWhitespace _ _ h1
  simp at h2

/-! ### C3 -/

set_option maxRecDepth 8192 in
/-- C3 counterexample: the file text "not json\n" is non-empty invalid JSON
and already ends in a newline, yet the fallback still writes a newline
before the serialized record (the code tests the stripped text, which never
ends in a newline), so the claimed shape — no newline prefix when the file
already ends in one — is not what the code produces. -/
theorem invalid_append_counterexample :
    pyEndsWith "not json\n" "\n" = true
    ∧ appendTrace (.invalid "not json\n") sampleRec1
        = .invalid ("not json\n" ++ "\n" ++ dumpsRecord sampleRec1 ++ "\n")
    ∧ appendTrace (.invalid "not json\n") sampleRec1
        ≠ .invalid ("not json\n" ++ dumpsRecord sampleRec1 ++ "\n") := by
  refine ⟨by decide, by decide, by decide⟩

/-- C3 amended: for every existing trace file whose stripped text is
non-empty and not valid JSON, appending does not raise, the prior bytes
are preserved, and the serialized record is appended as one line of its
own, always prefixed by a newline (the code tests the stripped text, which
never ends in a newline, so the prefix is unconditional). -/
theorem invalid_append_always_prefixes_newline (raw : String) (e : TraceRecord)
    (h : pyStrip raw ≠ "") :
    appendTrace (.invalid raw) e
      = .invalid (raw ++ "\n" ++ dumpsRecord e ++ "\n") := by
  simp only [appendTrace]
  rw [if_pos ⟨h, pyStrip_endsWith_newline_false raw⟩]

/-- C3 witness: the amended theorem at the concrete file text "x]". -/
theorem invalid_append_always_prefixes_newline_witness :
    appendTrace (.invalid "x]") sampleRec2
      = .invalid ("x]" ++ "\n" ++ dumpsRecord sampleRec2 ++ "\n") :=
  invalid_append_always_prefixes_newline "x]" sampleRec2 (by decide)

/-! ### Labeling tool turn extraction (labeler/app.py: load_trace, lines 78-106) -/

/-- The backward index scan of load_trace
(`for i in range(len(msgs) - 1, -1, -1): if p(msgs[i]): break`): the last
element satisfying `p`, together with its index. -/
def scanBack (p : Message → Bool) : List Message → Option (Nat × Message)
  | [] => none
  | m :: rest =>
      match scanBack p rest with
      | some (j, x) => some (j + 1, x)
      | none => if p m then some (0, m) else none

/-- The extraction step of load_trace on the selected record: from the
response conversation, the last assistant content (`assistant_output`) and
the relevant query (`initial_query`) with its two falsiness-driven
fallbacks; returns (initial_query, assistant_output). -/
def load_trace_extract (request_messages response_messages : List Message) :
    String × String :=
  let lastA := scanBack (fun m => m.role == "assistant") response_messages
  let assistant_output :=
    match lastA with
    | some im => im.2.content
    | none => ""
  -- for j in range(last_assistant_idx - 1, -1, -1): the last user before it
  let q0 :=
    match lastA with
    | some im =>
        match scanBack (fun m => m.role == "user") (response_messages.take im.1) with
        | some jm => jm.2.content
        | none => ""
    | none => ""
  -- if not initial_query: for m in reversed(response_messages)
  let q1 :=
    if q0 = "" then
      match response_messages.reverse.find? (fun m => m.role == "user") with
      | some m => m.content
      | none => q0
    else q0
  -- if not initial_query: for m in reversed(request_messages)
  let q2 :=
    if q1 = "" then
      match request_messages.reverse.find? (fun m => m.role == "user") with
      | some m => m.content
      | none => q1
    else q1
  (q2, assistant_output)

/-! Spec-side formulations of the extraction, written from the claim's own
words, to be compared with the code translation above. -/

/-- From the claim: the final answer is the content of the last message
with role=assistant, empty string if no assistant message exists. -/
def specFinalAnswer (response_messages : List Message) : String :=
  match response_messages.reverse.find? (fun m => m.role == "assistant") with
  | some m => m.content
  | none => ""

/-- From the claim: the content of the last user message in `msgs`, empty
string if none. -/
def lastUserContent (msgs : List Message) : String :=
  match msgs.reverse.find? (fun m => m.role == "user") with
  | some m => m.content
  | none => ""

/-- From the claim: the content of the nearest user message preceding the
last assistant message (scan backward from the last assistant), empty
string when there is no assistant message or no preceding user message. -/
def claimNearestPrecedingUser (response_messages : List Message) : String :=
  match response_messages.reverse.dropWhile (fun m => !(m.role == "assistant")) with
  | _ :: before =>
      match before.find? (fun m => m.role == "user") with
      | some m => m.content
      | none => ""
  | [] => ""

/-- The relevant query exactly as the claim states it: the content of the
nearest user message preceding the last assistant message; only when no
such user message is found (or no assistant message exists) fall back to
the last user message in the response thread, and only when none exists
there to the last user message in the request thread. -/
def claimRelevantQuery (request_messages response_messages : List Message) : String :=
  let fallback :=
    match response_messages.reverse.find? (fun m => m.role == "user") with
    | some m => m.content
    | none =>
        match request_messages.reverse.find? (fun m => m.role == "user") with
        | some m => m.content
        | none => ""
  match response_messages.reverse.dropWhile (fun m => !(m.role == "assistant")) with
  | _ :: before =>
      match before.find? (fun m => m.role == "user") with
      | some m => m.content
      | none => fallback
  | [] => fallback

/-- Left-to-right cascade on string emptiness (Python falsiness of ""). -/
def emptyFallback (a b : String) : String := if a = "" then b else a

/-! Lemmas relating the index scans to reversed-list scans. -/

/-- The element found by the backward scan is the first match in the
reversed list. -/
theorem scanBack_map_snd (p : Message → Bool) (l : List Message) :
    (scanBack p l).map (fun im => im.2) = l.reverse.find? p := by
  induction l with
  | nil => simp [scanBack]
  | cons m rest ih =>
      rw [scanBack, List.reverse_cons, List.find?_append, ← ih]
      cases h : scanBack p rest with
      | some jx => simp
      | none =>
          simp only [Option.map_none, Option.none_or]
          by_cases hm : p m = true
          · simp [hm, List.find?]
          · rw [Bool.not_eq_true] at hm
            simp [hm, List.find?]

/-- A backward scan that finds nothing leaves nothing behind the matching
dropWhile on the reversed list. -/
theorem scanBack_eq_none (p : Message → Bool) (l : List Message)
    (h : scanBack p l = none) :
    l.reverse.dropWhile (fun x => !(p x)) = [] := by
  induction l with
  | nil => simp
  | cons m rest ih =>
      rw [scanBack] at h
      cases hr : scanBack p rest with
      | some jx => rw [hr] at h; cases h
      | none =>
          rw [hr] at h
          by_cases hm : p m = true
          · rw [if_pos hm] at h; cases h
          · rw [List.reverse_cons, List.dropWhile_append, ih hr]
            simp only [List.isEmpty_nil, if_true]
            rw [Bool.not_eq_true] at hm
            simp [hm]

/-- A successful backward scan: the match satisfies the predicate, its
index is in range, and dropping the non-matches from the reversed list
yields the match followed by the reversed prefix before it. -/
theorem scanBack_eq_some (p : Message → Bool) (l : List Message) :
    ∀ (i : Nat) (m : Message), scanBack p l = some (i, m) →
      p m = true
      ∧ l.reverse.dropWhile (fun x => !(p x)) = m :: (l.take i).reverse := by
  induction l with
  | nil => intro i m h; cases h
  | cons a rest ih =>
      intro i m h
      rw [scanBack] at h
      cases hr : scanBack p rest with
      | some jx =>
          rw [hr] at h
          injection h with h2
          obtain ⟨j, x⟩ := jx
          have hij : i = j + 1 ∧ m = x := by
            constructor
            · exact congrArg Prod.fst h2.symm
            · exact congrArg Prod.snd h2.symm
          obtain ⟨hi, hm⟩ := hij
          subst hi; subst hm
          obtain ⟨hp, hdrop⟩ := ih j m hr
          refine ⟨hp, ?_⟩
          rw [List.reverse_cons, List.dropWhile_append, hdrop]
          simp [List.take_succ_cons]
      | none =>
          rw [hr] at h
          by_cases ha : p a = true
          · rw [if_pos ha] at h
            injection h with h2
            have hi : i = 0 := congrArg Prod.fst h2.symm
            have hm : m = a := congrArg Prod.snd h2.symm
            subst hi; subst hm
            refine ⟨ha, ?_⟩
            rw [List.reverse_cons, List.dropWhile_append, scanBack_eq_none p rest hr]
            simp [ha]
          · rw [if_neg ha] at h; cases h

/-! ### C4 -/

/-- C4 counterexample: in the response thread [user:"", assistant:"D"] the
nearest user message preceding the last assistant message exists and has
content "", so the claim makes the relevant query "" — but the code falls
back on Python falsiness of the empty string and returns the last user
content "Q" of the request thread instead. -/
theorem turn_extraction_counterexample :
    load_trace_extract [⟨"user", "Q"⟩] [⟨"user", ""⟩, ⟨"assistant", "D"⟩] = ("Q", "D")
    ∧ claimRelevantQuery [⟨"user", "Q"⟩] [⟨"user", ""⟩, ⟨"assistant", "D"⟩] = ""
    ∧ ("Q" : String) ≠ "" :=
  ⟨by decide, by decide, by decide⟩

/-- C4 amended: the extracted final answer is the content of the last
assistant message (empty if none), and the relevant query is the content
of the nearest user message preceding that assistant message, except that
each fallback — first the last user message anywhere in the response
thread, then the last user message in the request thread — is taken
whenever the query extracted so far is the empty string (so also when the
preceding user message exists but has empty content), not only when no
preceding user message is found; the claim's concrete instance
[user:"A", assistant:"B", user:"C", assistant:"D"] gives ("C", "D"). -/
theorem turn_extraction_characterization (req resp : List Message) :
    load_trace_extract req resp
      = (emptyFallback
          (emptyFallback (claimNearestPrecedingUser resp) (lastUserContent resp))
          (lastUserContent req),
         specFinalAnswer resp)
    ∧ load_trace_extract [⟨"user", "A"⟩]
        [⟨"user", "A"⟩, ⟨"assistant", "B"⟩, ⟨"user", "C"⟩, ⟨"assistant", "D"⟩]
        = ("C", "D") := by
  refine ⟨?_, by decide⟩
  cases h : scanBack (fun m => m.role == "assistant") resp with
  | none =>
      have hfa : resp.reverse.find? (fun m => m.role == "assistant") = none := by
        have h1 := scanBack_map_snd (fun m => m.role == "assistant") resp
        rw [h] at h1
        exact h1.symm
      have hdrop := scanBack_eq_none (fun m => m.role == "assistant") resp h
      simp only [load_trace_extract, h, specFinalAnswer, hfa, claimNearestPrecedingUser,
        lastUserContent, emptyFallback, hdrop]
      cases hfr : resp.reverse.find? (fun m => m.role == "user") with
      | some u =>
          simp only [if_true]
          by_cases hu : u.content = ""
          · simp [hu]
          · simp [hu]
      | none => simp
  | some im =>
      obtain ⟨i, m⟩ := im
      have hfa : resp.reverse.find? (fun m => m.role == "assistant") = some m := by
        have h1 := scanBack_map_snd (fun m => m.role == "assistant") resp
        rw [h] at h1
        exact h1.symm
      obtain ⟨hp, hdrop⟩ := scanBack_eq_some (fun m => m.role == "assistant") resp i m h
      have hq0 : (match scanBack (fun m => m.role == "user") (resp.take i) with
          | some jm => jm.2.content
          | none => "")
          = (match (resp.take i).reverse.find? (fun m => m.role == "user") with
          | some u => u.content
          | none => "") := by
        have h2 := scanBack_map_snd (fun m => m.role == "user") (resp.take i)
        cases hs : scanBack (fun m => m.role == "user") (resp.take i) with
        | none => rw [hs] at h2; rw [← h2]; rfl
        | some jm => rw [hs] at h2; rw [← h2]; rfl
      simp only [load_trace_extract, h, specFinalAnswer, hfa, claimNearestPrecedingUser,
        lastUserContent, emptyFallback, hdrop, hq0]
      cases hq : (resp.take i).reverse.find? (fun m => m.role == "user") with
      | some u =>
          by_cases hu : u.content = ""
          · simp only [hu, if_true]
            cases hfr : resp.reverse.find? (fun m => m.role == "user") with
            | some v =>
                by_cases hv : v.content = ""
                · simp [hv]
                · simp [hv]
            | none => simp
          · simp [hu]
      | none =>
          simp only [if_true]
          cases hfr : resp.reverse.find? (fun m => m.role == "user") with
          | some v =>
              by_cases hv : v.content = ""
              · simp [hv]
              · simp [hv]
          | none => simp

/-! ### Trace file selection (backend/main.py lines 81-97) -/

/-- One directory entry: a file name, its modification time, and its
content in the shape classification of the Trace Store. -/
structure DirFile where
  name : String
  mtime : Nat
  content : TraceFileState
deriving Repr, DecidableEq

/-- Head of `sorted(files, key=mtime, reverse=True)`: the first file, in
directory order, with maximal modification time (Python sort is stable, so
ties keep directory order and the earliest maximal file wins). -/
def mostRecent : List DirFile → Option DirFile
  | [] => none
  | f :: fs =>
      match mostRecent fs with
      | none => some f
      | some g => if f.mtime ≥ g.mtime then some f else some g

/-- The *.json files of the directory, in directory order (the glob). -/
def jsonFilesOf (dir : List DirFile) : List DirFile :=
  dir.filter (fun f => pyEndsWith f.name ".json")

/-- Writing the new entry into the named file: its content goes through
`appendTrace` and its modification time becomes `now`. -/
def writeInto (dir : List DirFile) (name : String) (now : Nat) (entry : TraceRecord) :
    List DirFile :=
  dir.map (fun f =>
    if f.name = name then { f with content := appendTrace f.content entry, mtime := now }
    else f)

/-- One request's trace-persistence step (backend/main.py lines 81-123):
choose the most-recently-modified *.json file if any exists, otherwise a
new file named from the current timestamp, and append the entry to it (a
new path does not exist, so `appendTrace .absent` writes the one-element
array, exactly the code's else branch). -/
def chatStep (dir : List DirFile) (ts : String) (now : Nat) (entry : TraceRecord) :
    List DirFile :=
  match mostRecent (jsonFilesOf dir) with
  | some trace_path => writeInto dir trace_path.name now entry
  | none => dir ++ [⟨"trace_" ++ ts ++ ".json", now, appendTrace .absent entry⟩]

/-- A string always ends with its own appended suffix. -/
theorem pyEndsWith_append (a b : String) : pyEndsWith (a ++ b) b = true := by
  simp [pyEndsWith]

/-- `mostRecent` returns `none` exactly on the empty list. -/
theorem mostRecent_eq_none : ∀ l : List DirFile, mostRecent l = none ↔ l = []
  | [] => by simp [mostRecent]
  | a :: as => by
      rw [mostRecent]
      cases hr : mostRecent as with
      | none => simp
      | some b => by_cases hge : a.mtime ≥ b.mtime <;> simp [hge]

/-- The selected file is in the list. -/
theorem mostRecent_mem : ∀ (l : List DirFile) (f : DirFile),
    mostRecent l = some f → f ∈ l
  | [], f => by intro h; cases h
  | a :: as, f => by
      intro h
      cases hr : mostRecent as with
      | none =>
          simp only [mostRecent, hr] at h
          injection h with h2; subst h2
          exact List.mem_cons_self a as
      | some b =>
          simp only [mostRecent, hr] at h
          by_cases hge : a.mtime ≥ b.mtime
          · rw [if_pos hge] at h; injection h with h2; subst h2
            exact List.mem_cons_self a as
          · rw [if_neg hge] at h; injection h with h2; subst h2
            exact List.mem_cons_of_mem _ (mostRecent_mem as b hr)

/-- The selected file has maximal modification time. -/
theorem mostRecent_max : ∀ (l : List DirFile) (f : DirFile),
    mostRecent l = some f → ∀ g ∈ l, g.mtime ≤ f.mtime
  | [], f => by intro h; cases h
  | a :: as, f => by
      intro h g hg
      cases hr : mostRecent as with
      | none =>
          simp only [mostRecent, hr] at h
          injection h with h2; subst h2
          have has : as = [] := (mostRecent_eq_none as).mp hr
          subst has
          rcases List.mem_cons.mp hg with rfl | h3
          · exact le_refl _
          · cases h3
      | some b =>
          simp only [mostRecent, hr] at h
          by_cases hge : a.mtime ≥ b.mtime
          · rw [if_pos hge] at h; injection h with h2; subst h2
            rcases List.mem_cons.mp hg with rfl | h3
            · exact le_refl _
            · have := mostRecent_max as b hr g h3; omega
          · rw [if_neg hge] at h; injection h with h2; subst h2
            rcases List.mem_cons.mp hg with rfl | h3
            · omega
            · exact mostRecent_max as b hr g h3

/-! ### C5 -/

/-- C5: the chat service writes into the most-recently-modified *.json
file of the trace directory when one exists (the chosen file is a *.json
file of the directory with maximal modification time), and otherwise into
a new file named from the current timestamp holding the one-element array;
hence two requests in sequence against a fresh directory, with no other
file created in between, append to the same file and leave a single file
holding the two entries in insertion order. -/
theorem trace_file_selection (dir : List DirFile) (ts : String) (now : Nat)
    (e : TraceRecord) :
    (jsonFilesOf dir = [] →
      chatStep dir ts now e
        = dir ++ [⟨"trace_" ++ ts ++ ".json", now, .array [e]⟩])
    ∧ (∀ f, mostRecent (jsonFilesOf dir) = some f →
        f ∈ jsonFilesOf dir
        ∧ (∀ g ∈ jsonFilesOf dir, g.mtime ≤ f.mtime)
        ∧ chatStep dir ts now e = writeInto dir f.name now e)
    ∧ (∀ (ts1 ts2 : String) (t1 t2 : Nat) (e1 e2 : TraceRecord),
        chatStep (chatStep [] ts1 t1 e1) ts2 t2 e2
          = [⟨"trace_" ++ ts1 ++ ".json", t2, .array [e1, e2]⟩]) := by
  refine ⟨?_, ?_, ?_⟩
  · intro h
    simp [chatStep, h, mostRecent, appendTrace]
  · intro f h
    exact ⟨mostRecent_mem _ _ h, mostRecent_max _ _ h, by simp [chatStep, h]⟩
  · intro ts1 ts2 t1 t2 e1 e2
    have h1 : chatStep [] ts1 t1 e1
        = [⟨"trace_" ++ ts1 ++ ".json", t1, .array [e1]⟩] := by
      simp [chatStep, jsonFilesOf, mostRecent, appendTrace]
    rw [h1]
    simp [chatStep, jsonFilesOf, mostRecent, writeInto, appendTrace, pyEndsWith_append]

/-- A concrete directory used by the C5 witness: two json files with
distinct modification times and one non-json file. -/
def sampleDir : List DirFile :=
  [⟨"a.json", 5, .array []⟩, ⟨"b.json", 9, .singleObj sampleRec1⟩,
   ⟨"notes.txt", 99, .invalid "x"⟩]

/-- C5 witness: on the concrete directory, the step writes into b.json,
the *.json file with maximal modification time. -/
theorem trace_file_selection_witness :
    chatStep sampleDir "T" 10 sampleRec2 = writeInto sampleDir "b.json" 10 sampleRec2 :=
  ((trace_file_selection sampleDir "T" 10 sampleRec2).2.1
    ⟨"b.json", 9, .singleObj sampleRec1⟩ (by decide)).2.2

/-! ### Label store (labeler/app.py: save_label, lines 147-185) -/

/-- One record of labels.jsonl. -/
structure LabelRecord where
  filename : String
  feedback : String
  verdict : String
  index : Int
  saved_at : String
deriving Repr, DecidableEq

/-- The read-and-replace loop of save_label over the lines of the label
file: a line is `none` when json.loads raises on it (the loop skips it, so
it is dropped from the rewrite), otherwise the parsed record; a parsed row
whose filename equals the new record's is replaced by the new record and
sets the seen flag.  Returns (rows to write, seen). -/
def processLines (record : LabelRecord) :
    List (Option LabelRecord) → (List LabelRecord × Bool)
  | [] => ([], false)
  | none :: rest => processLines record rest
  | some row :: rest =>
      let pr := processLines record rest
      if row.filename == record.filename then (record :: pr.1, true)
      else (row :: pr.1, pr.2)

/-- labeler/app.py save_label, persistence part: rewrite the whole file
with every matching row replaced by the new record, appending the record
when no row matched. -/
def save_label (lines : List (Option LabelRecord)) (record : LabelRecord) :
    List LabelRecord :=
  let pr := processLines record lines
  if pr.2 then pr.1 else pr.1 ++ [record]

/-- Characterization of the replace loop: among the rewritten rows, the
rows for the record's filename are exactly one copy of the new record per
previously matching parsed row, and the seen flag is set exactly when some
parsed row matched. -/
theorem processLines_characterization (record : LabelRecord) :
    ∀ lines : List (Option LabelRecord),
      (processLines record lines).1.filter (fun r => r.filename == record.filename)
        = List.replicate
            ((lines.filterMap id).filter
              (fun r => r.filename == record.filename)).length record
      ∧ ((processLines record lines).2 = true ↔
          ((lines.filterMap id).filter
            (fun r => r.filename == record.filename)).length ≠ 0)
  | [] => by simp [processLines]
  | none :: rest => by
      simpa [processLines] using processLines_characterization record rest
  | some row :: rest => by
      obtain ⟨ih1, ih2⟩ := processLines_characterization record rest
      by_cases hm : row.filename == record.filename
      · simp [processLines, hm, ih1, List.replicate_succ]
      · rw [Bool.not_eq_true] at hm
        simp [processLines, hm, ih1, ih2]

/-! ### C7 -/

/-- C7: for every label file with at most one parsed record per filename,
saving a label leaves exactly one record for that filename — the new
record, holding the latest feedback and verdict. -/
theorem label_upsert_unique (lines : List (Option LabelRecord)) (record : LabelRecord)
    (h : ((lines.filterMap id).filter
        (fun r => r.filename == record.filename)).length ≤ 1) :
    (save_label lines record).filter (fun r => r.filename == record.filename)
      = [record] := by
  obtain ⟨h1, h2⟩ := processLines_characterization record lines
  rw [save_label]
  cases hflag : (processLines record lines).2 with
  | true =>
      have hne := h2.mp hflag
      have hcount : ((lines.filterMap id).filter
          (fun r => r.filename == record.filename)).length = 1 := by omega
      simp only [if_true]
      rw [h1, hcount, List.replicate_one]
  | false =>
      have hzero : ((lines.filterMap id).filter
          (fun r => r.filename == record.filename)).length = 0 := by
        by_contra hc
        have := h2.mpr hc
        rw [hflag] at this
        cases this
      rw [if_neg Bool.false_ne_true]
      rw [List.filter_append, h1, hzero, List.replicate_zero]
      simp

/-- A first saved label for t.json, as the claim's example. -/
def sampleLabel1 : LabelRecord :=
  { filename := "t.json", feedback := "good", verdict := "up",
    index := 0, saved_at := "2024-01-01T00:00:00Z" }

/-- A second save for the same filename with different feedback. -/
def sampleLabel2 : LabelRecord :=
  { filename := "t.json", feedback := "better", verdict := "up",
    index := 0, saved_at := "2024-01-01T00:01:00Z" }

/-- C7 witness: saving for t.json twice with different feedback leaves
exactly one record for t.json, holding the latest feedback. -/
theorem label_upsert_unique_witness :
    (save_label [some sampleLabel1] sampleLabel2).filter
        (fun r => r.filename == sampleLabel2.filename) = [sampleLabel2] :=
  label_upsert_unique [some sampleLabel1] sampleLabel2 (by decide)

/-! ### Reader-side view of a trace file (annotation and labeling tools).

json.load on a trace file yields a list of record dicts, a single record
dict, or raises.  Record dicts are modelled as TraceRecord: every record
the chat service writes carries the full ts/request/response shape. -/

inductive FileJson where
  /-- json.load raises (malformed file) -/
  | invalid
  /-- a single JSON object -/
  | obj (r : TraceRecord)
  /-- a JSON array of record objects -/
  | arr (rs : List TraceRecord)
deriving Repr, DecidableEq

/-- The field updates of save_annotation on one record: open_coding is
always set to the notes; axial_coding_code only when one was submitted
(the parameter defaults to None in the code). -/
def setCoding (notes : String) (axial_coding_code : Option String)
    (r : TraceRecord) : TraceRecord :=
  let r1 := { r with open_coding := some notes }
  match axial_coding_code with
  | some a => { r1 with axial_coding_code := some a }
  | none => r1

/-- annotation/annotation.py save_annotation (lines 125-144): json.load
the file (raises on malformed content), update the last record of an
array (or the object itself; an empty array falls to the else branch,
where data starts from the empty dict, modelled as a record with empty
fields), write the whole structure back. -/
def save_annotation (raw : FileJson) (notes : String)
    (axial_coding_code : Option String) : Except String FileJson :=
  match raw with
  | .invalid => .error "JSONDecodeError"
  | .obj r => .ok (.obj (setCoding notes axial_coding_code r))
  | .arr rs =>
      match rs.getLast? with
      | some last => .ok (.arr (rs.dropLast ++ [setCoding notes axial_coding_code last]))
      | none => .ok (.obj (setCoding notes axial_coding_code ⟨"", [], [], none, none⟩))

/-! ### C9 -/

/-- C9: for every trace file parsing as a non-empty array, saving an
annotation rewrites the file as the unchanged earlier records followed by
the updated last record; no record is deleted (the length is preserved),
the last record keeps its ts, request and response, its open_coding
becomes the submitted notes, and its axial_coding_code changes only when
a value was submitted. -/
theorem annotation_save_frame (rs : List TraceRecord) (r : TraceRecord)
    (notes : String) (ax : Option String) (h : rs.getLast? = some r) :
    save_annotation (.arr rs) notes ax
        = .ok (.arr (rs.dropLast ++ [setCoding notes ax r]))
    ∧ (rs.dropLast ++ [setCoding notes ax r]).length = rs.length
    ∧ (setCoding notes ax r).ts = r.ts
    ∧ (setCoding notes ax r).request = r.request
    ∧ (setCoding notes ax r).response = r.response
    ∧ (setCoding notes ax r).open_coding = some notes
    ∧ (ax = none → (setCoding notes ax r).axial_coding_code = r.axial_coding_code)
    ∧ (∀ a, ax = some a → (setCoding notes ax r).axial_coding_code = some a) := by
  have hne : rs ≠ [] := by
    intro he; subst he; cases h
  refine ⟨by simp [ save_annotation, h], ?_, ?_, ?_, ?_, ?_, ?_, ?_⟩
  · rw [List.length_append, List.length_dropLast, List.length_singleton]
    have : 0 < rs.length := List.length_pos.mpr hne
    omega
  · cases ax <;> simp [setCoding]
  · cases ax <;> simp [setCoding]
  · cases ax <;> simp [setCoding]
  · cases ax <;> simp [setCoding]
  · intro hax; subst hax; simp [setCoding]
  · intro a hax; subst hax; simp [setCoding]

/-- C9 witness: the frame condition at a concrete two-record file. -/
theorem annotation_save_frame_witness :
    save_annotation (.arr [sampleRec1, sampleRec2]) "misses serving size"
        (some "missing-detail")
      = .ok (.arr ([sampleRec1, sampleRec2].dropLast
          ++ [setCoding "misses serving size" (some "missing-detail") sampleRec2])) :=
  (annotation_save_frame [sampleRec1, sampleRec2] sampleRec2 "misses serving size"
    (some "missing-detail") (by decide)).1

/-! ### Directory listings of the two tools -/

/-- The character-list form of Python `s.split(sep)` with a one-character
separator (an empty string splits to [""]). -/
def pySplitChar (c : Char) : List Char → List (List Char)
  | [] => [[]]
  | x :: xs =>
      let r := pySplitChar c xs
      if x = c then [] :: r
      else
        match r with
        | [] => [[x]]
        | y :: ys => (x :: y) :: ys

/-- Python `s.split(c)` for a one-character separator. -/
def pySplit (s : String) (c : Char) : List String :=
  (pySplitChar c s.data).map (fun l => ⟨l⟩)

/-- Lexicographic comparison of character lists by code point, the order
Python uses on strings. -/
def charListLt : List Char → List Char → Bool
  | [], [] => false
  | [], _ :: _ => true
  | _ :: _, [] => false
  | a :: as, b :: bs =>
      if a.toNat < b.toNat then true
      else if b.toNat < a.toNat then false
      else charListLt as bs

/-- Python string comparison a < b. -/
def nameLt (a b : String) : Bool := charListLt a.data b.data

/-- Stable insertion for an ascending sort by file name (Python sorted is
stable; an element inserted into the sorted later elements goes before any
element of equal name). -/
def insertByName (x : String × FileJson) :
    List (String × FileJson) → List (String × FileJson)
  | [] => [x]
  | y :: ys => if nameLt y.1 x.1 then y :: insertByName x ys else x :: y :: ys

/-- `sorted(files)`: ascending stable sort by file name. -/
def sortByName : List (String × FileJson) → List (String × FileJson)
  | [] => []
  | x :: xs => insertByName x (sortByName xs)

/-- The loop body of labeler/app.py list_trace_files (lines 24-49) over the
name-sorted *.json files: a file whose json.load raises is skipped
(`except Exception: continue`); an array file contributes one identifier
fname#ts per entry (the entries written by the chat service are dicts
holding a response key, so the guard admits them); an object file
contributes its bare filename. -/
def list_trace_files_loop : List (String × FileJson) → List String
  | [] => []
  | (fname, content) :: rest =>
      (match content with
       | FileJson.invalid => []
       | FileJson.arr rs =>
           rs.map (fun entry =>
             if entry.ts ≠ "" then fname ++ "#" ++ entry.ts else fname ++ "#")
       | FileJson.obj _ => [fname])
      ++ list_trace_files_loop rest

/-- labeler/app.py list_trace_files: name-sorted *.json files, flattened
to identifiers, skipping unreadable files. -/
def list_trace_files (dir : List (String × FileJson)) : List String :=
  list_trace_files_loop (sortByName (dir.filter (fun f => pyEndsWith f.1 ".json")))

/-- The loop of annotation/annotation.py list_traces (lines 11-29) over the
name-sorted *.json files.  There is no exception handling: json.load on a
malformed file raises and the exception propagates (error result); so do
the later accesses data["request"]["messages"][0] (on an empty array the
data is the list itself, on an empty messages list the index is out of
range) and fname.split('_')[1]/[2] on a name with too few underscore
parts.  On success the loop produces one link per file, keyed by fname. -/
def annotationItems : List (String × FileJson) → Except String (List String)
  | [] => .ok []
  | (fname, content) :: rest =>
      let dataE : Except String TraceRecord :=
        match content with
        | FileJson.invalid => .error "JSONDecodeError"
        | FileJson.obj r => .ok r
        | FileJson.arr rs =>
            match rs.getLast? with
            | some last => .ok last
            | none => .error "TypeError"
      match dataE with
      | .error e => .error e
      | .ok data =>
          match data.request with
          | [] => .error "IndexError"
          | _ :: _ =>
              if (pySplit fname '_').length < 3 then .error "IndexError"
              else
                match annotationItems rest with
                | .ok ids => .ok (fname :: ids)
                | .error e => .error e

/-- annotation/annotation.py list_traces over a directory. -/
def annotation_list_traces (dir : List (String × FileJson)) :
    Except String (List String) :=
  annotationItems (sortByName (dir.filter (fun f => pyEndsWith f.1 ".json")))

/-- Membership is preserved by stable insertion. -/
theorem mem_insertByName (x y : String × FileJson) :
    ∀ l : List (String × FileJson), y ∈ insertByName x l ↔ y = x ∨ y ∈ l
  | [] => by simp [insertByName]
  | z :: zs => by
      rw [insertByName]
      cases hz : nameLt z.1 x.1
      · rw [if_neg Bool.false_ne_true]
        simp [List.mem_cons]
      · rw [if_pos rfl]
        rw [List.mem_cons, mem_insertByName x y zs, List.mem_cons]
        tauto

/-- Membership is preserved by the stable sort. -/
theorem mem_sortByName (y : String × FileJson) :
    ∀ l : List (String × FileJson), y ∈ sortByName l ↔ y ∈ l
  | [] => by simp [sortByName]
  | x :: xs => by
      rw [sortByName, mem_insertByName, mem_sortByName y xs, List.mem_cons]

/-- A malformed file anywhere in the list makes the annotation listing
loop raise. -/
theorem annotationItems_error_of_invalid :
    ∀ (l : List (String × FileJson)) (fname : String),
      (fname, FileJson.invalid) ∈ l → ∃ e, annotationItems l = .error e
  | [], fname => by intro h; cases h
  | (g, c) :: rest, fname => by
      intro h
      rcases List.mem_cons.mp h with heq | hmem
      · injection heq with h1 h2
        subst h2
        exact ⟨"JSONDecodeError", by simp [annotationItems]⟩
      · obtain ⟨e, he⟩ := annotationItems_error_of_invalid rest fname hmem
        cases c with
        | invalid => exact ⟨"JSONDecodeError", by simp [annotationItems]⟩
        | obj r =>
            cases hreq : r.request with
            | nil => exact ⟨"IndexError", by simp [annotationItems, hreq]⟩
            | cons m ms =>
                by_cases hp : (pySplit g '_').length < 3
                · exact ⟨"IndexError", by simp [annotationItems, hreq, hp]⟩
                · exact ⟨e, by simp [annotationItems, hreq, hp, he]⟩
        | arr rs =>
            cases hlast : rs.getLast? with
            | none => exact ⟨"TypeError", by simp [annotationItems, hlast]⟩
            | some last =>
                cases hreq : last.request with
                | nil => exact ⟨"IndexError", by simp [annotationItems, hlast, hreq]⟩
                | cons m ms =>
                    by_cases hp : (pySplit g '_').length < 3
                    · exact ⟨"IndexError", by simp [annotationItems, hlast, hreq, hp]⟩
                    · exact ⟨e, by simp [annotationItems, hlast, hreq, hp, he]⟩

/-! ### C8 -/

/-- C8 counterexample: on a directory holding one well-formed object trace
and one malformed file, the labeling tool's listing skips the malformed
file and returns the remaining identifier, but the annotation tool's
listing raises instead of returning the remaining identifiers — the claim
is false for the Annotation Tool. -/
theorem malformed_listing_counterexample :
    list_trace_files
        [("trace_20240101_000000.json", FileJson.obj sampleRec1),
         ("x.json", FileJson.invalid)]
      = ["trace_20240101_000000.json"]
    ∧ annotation_list_traces
        [("trace_20240101_000000.json", FileJson.obj sampleRec1),
         ("x.json", FileJson.invalid)]
      = .error "JSONDecodeError"
    ∧ (∀ ids : List String,
        (Except.error "JSONDecodeError" : Except String (List String)) ≠ .ok ids) := by
  refine ⟨by rfl, by rfl, ?_⟩
  intro ids h
  cases h

/-- C8 amended: the Labeling Tool's listing skips a malformed file and
returns the identifiers of the remaining files, but the Annotation Tool's
listing has no exception handling, so one malformed *.json file in the
directory makes its listing raise rather than return the remaining
identifiers. -/
theorem malformed_listing_amended (fname : String) :
    (∀ pre post : List (String × FileJson),
      list_trace_files_loop (pre ++ (fname, FileJson.invalid) :: post)
        = list_trace_files_loop (pre ++ post))
    ∧ (∀ dir : List (String × FileJson),
        (fname, FileJson.invalid) ∈ dir → pyEndsWith fname ".json" = true →
        ∃ e, annotation_list_traces dir = .error e) := by
  constructor
  · intro pre post
    induction pre with
    | nil => simp [list_trace_files_loop]
    | cons f pre ih =>
        obtain ⟨g, c⟩ := f
        simp only [List.cons_append, list_trace_files_loop]
        exact congrArg _ ih
  · intro dir hmem hjson
    have h1 : (fname, FileJson.invalid) ∈ dir.filter (fun f => pyEndsWith f.1 ".json") :=
      List.mem_filter.mpr ⟨hmem, hjson⟩
    have h2 : (fname, FileJson.invalid)
        ∈ sortByName (dir.filter (fun f => pyEndsWith f.1 ".json")) :=
      (mem_sortByName _ _).mpr h1
    exact annotationItems_error_of_invalid _ fname h2

/-- C8 witness: the amended theorem at a concrete directory. -/
theorem malformed_listing_amended_witness :
    list_trace_files_loop
        ([("a.json", FileJson.obj sampleRec1)] ++ ("x.json", FileJson.invalid) :: [])
      = list_trace_files_loop ([("a.json", FileJson.obj sampleRec1)] ++ [])
    ∧ ∃ e, annotation_list_traces [("x.json", FileJson.invalid)] = .error e :=
  ⟨(malformed_listing_amended "x.json").1 [("a.json", FileJson.obj sampleRec1)] [],
   (malformed_listing_amended "x.json").2 [("x.json", FileJson.invalid)]
     (by simp) (by decide)⟩

/-! ### Labeling tool trace load and GET /api/trace/(index)
(labeler/app.py lines 52-111 and 133-144) -/

/-- Python s.split(sep, 1) at the character level: `none` when the
separator does not occur, otherwise the parts before and after its first
occurrence. -/
def splitOnceChar (c : Char) : List Char → Option (List Char × List Char)
  | [] => none
  | x :: xs =>
      if x = c then some ([], xs)
      else (splitOnceChar c xs).map (fun p => (x :: p.1, p.2))

/-- file_id.split('#', 1) combined with the `'#' in file_id` test: the
filename part and, when a '#' occurs, the entry timestamp part. -/
def pySplitOnce (s : String) (c : Char) : String × Option String :=
  match splitOnceChar c s.data with
  | none => (s, none)
  | some (a, b) => (⟨a⟩, some ⟨b⟩)

/-- Opening the named file in the directory (names are unique on a real
filesystem; the model takes the first match). -/
def openFile (dir : List (String × FileJson)) (name : String) : Option FileJson :=
  (dir.find? (fun f => f.1 == name)).map (fun f => f.2)

/-- The payload load_trace builds for one trace. -/
structure TracePayload where
  filename : String
  initial_query : String
  assistant_output : String
deriving Repr, DecidableEq

/-- The payload for a selected record: the turn extraction applied to its
request and response conversations. -/
def tracePayloadOf (file_id : String) (r : TraceRecord) : TracePayload :=
  let qa := load_trace_extract r.request r.response
  ⟨file_id, qa.1, qa.2⟩

/-- labeler/app.py load_trace: split the identifier at '#', open and parse
the file (raising — an error here — when it is missing or malformed), pick
the entry: for a non-empty array, the first entry with the given non-empty
timestamp, defaulting to the last entry; for an empty array the data is
the list itself and the .get attribute access raises; for an object, the
object itself. -/
def load_trace (dir : List (String × FileJson)) (file_id : String) :
    Except String TracePayload :=
  let fe := pySplitOnce file_id '#'
  match openFile dir fe.1 with
  | none => .error "FileNotFoundError"
  | some FileJson.invalid => .error "JSONDecodeError"
  | some (FileJson.obj r) => .ok (tracePayloadOf file_id r)
  | some (FileJson.arr rs) =>
      match rs.getLast? with
      | none => .error "AttributeError"
      | some last =>
          let data :=
            match fe.2 with
            | some ts =>
                if ts ≠ "" then
                  match rs.find? (fun entry => entry.ts == ts) with
                  | some selected => selected
                  | none => last
                else last
            | none => last
          .ok (tracePayloadOf file_id data)

/-- labeler/app.py get_trace: 404 when no trace identifiers exist,
otherwise clamp the index into range and load the trace at the clamped
position; the payload is returned with the clamped index and the total
(the existing-label decoration joined from labels.jsonl is read-only and
not part of the claims).  An exception from load_trace escapes the
handler as a server error. -/
def get_trace (dir : List (String × FileJson)) (index : Int) :
    Except (Nat × String) (TracePayload × Int × Nat) :=
  let files := list_trace_files dir
  if files = [] then .error (404, "No traces found")
  else
    let clamped : Int := max 0 (min index ((files.length : Int) - 1))
    match load_trace dir (files.getD clamped.toNat "") with
    | .error e => .error (500, e)
    | .ok payload => .ok (payload, clamped, files.length)

/-- Splitting at a character that does not occur returns nothing. -/
theorem splitOnceChar_of_not_mem (c : Char) :
    ∀ l : List Char, c ∉ l → splitOnceChar c l = none
  | [] => by intro _; rfl
  | x :: xs => by
      intro h
      have hx : ¬ x = c := fun he => h (he ▸ List.mem_cons_self x xs)
      have hxs : c ∉ xs := fun hm => h (List.mem_cons_of_mem _ hm)
      simp only [splitOnceChar]
      rw [if_neg hx, splitOnceChar_of_not_mem c xs hxs]
      rfl

/-- Splitting at the first occurrence of the separator. -/
theorem splitOnceChar_append (c : Char) (l₂ : List Char) :
    ∀ l₁ : List Char, c ∉ l₁ → splitOnceChar c (l₁ ++ c :: l₂) = some (l₁, l₂)
  | [] => by intro _; simp [splitOnceChar]
  | x :: xs => by
      intro h
      have hx : ¬ x = c := fun he => h (he ▸ List.mem_cons_self x xs)
      have hxs : c ∉ xs := fun hm => h (List.mem_cons_of_mem _ hm)
      rw [List.cons_append]
      simp only [splitOnceChar]
      rw [if_neg hx, splitOnceChar_append c l₂ xs hxs]
      rfl

/-- With unique file names, opening a listed name yields its content. -/
theorem openFile_eq_of_mem :
    ∀ (dir : List (String × FileJson)) (name : String) (content : FileJson),
      (name, content) ∈ dir → (dir.map Prod.fst).Nodup →
      openFile dir name = some content
  | [], _, _ => by intro h _; cases h
  | (g, c) :: rest, name, content => by
      intro hmem hnodup
      rw [List.map_cons, List.nodup_cons] at hnodup
      obtain ⟨hg, hrest⟩ := hnodup
      rcases List.mem_cons.mp hmem with heq | hmem2
      · injection heq with h1 h2; subst h1; subst h2
        simp [openFile, List.find?_cons]
      · have hne : g ≠ name := by
          intro he; subst he
          exact hg (List.mem_map.mpr ⟨(g, content), hmem2, rfl⟩)
        have hb : ((g, c).1 == name) = false := by
          simp only [beq_eq_false_iff_ne, ne_eq]
          exact hne
        rw [openFile, List.find?_cons, hb]
        exact openFile_eq_of_mem rest name content hmem2 hrest

/-- Every identifier the listing loop produces comes from a directory
entry, either as the bare filename of an object file or as fname#ts for an
entry of an array file. -/
theorem mem_list_trace_files_loop :
    ∀ (l : List (String × FileJson)) (f : String), f ∈ list_trace_files_loop l →
      ∃ fname content, (fname, content) ∈ l ∧
        ((∃ r, content = FileJson.obj r ∧ f = fname)
         ∨ (∃ rs r, content = FileJson.arr rs ∧ r ∈ rs ∧
              f = if r.ts ≠ "" then fname ++ "#" ++ r.ts else fname ++ "#"))
  | [] => by intro f h; cases h
  | (g, c) :: rest => by
      intro f h
      simp only [list_trace_files_loop] at h
      rcases List.mem_append.mp h with hhead | htail
      · cases c with
        | invalid => cases hhead
        | obj r =>
            have hf : f = g := List.mem_singleton.mp hhead
            exact ⟨g, FileJson.obj r, List.mem_cons_self _ _, Or.inl ⟨r, rfl, hf⟩⟩
        | arr rs =>
            obtain ⟨r, hr, hfeq⟩ := List.mem_map.mp hhead
            exact ⟨g, FileJson.arr rs, List.mem_cons_self _ _,
              Or.inr ⟨rs, r, rfl, hr, hfeq.symm⟩⟩
      · obtain ⟨fname, content, hmem, hsh⟩ := mem_list_trace_files_loop rest f htail
        exact ⟨fname, content, List.mem_cons_of_mem _ hmem, hsh⟩

/-- Every identifier the listing produces can be loaded: the identifier
names an existing, well-formed file and, for an array identifier, a
non-empty array. -/
theorem load_trace_ok_of_mem (dir : List (String × FileJson))
    (hnames : (dir.map Prod.fst).Nodup)
    (hnohash : ∀ f ∈ dir, '#' ∉ f.1.data)
    (f : String) (hf : f ∈ list_trace_files dir) :
    ∃ p, load_trace dir f = .ok p := by
  rw [list_trace_files] at hf
  obtain ⟨fname, content, hmemS, hshape⟩ := mem_list_trace_files_loop _ f hf
  have hmemF := (mem_sortByName _ _).mp hmemS
  have hmemD : (fname, content) ∈ dir := (List.mem_filter.mp hmemF).1
  have hopen : openFile dir fname = some content :=
    openFile_eq_of_mem dir fname content hmemD hnames
  have hhash : '#' ∉ fname.data := hnohash _ hmemD
  rcases hshape with ⟨r, hc, hfeq⟩ | ⟨rs, r, hc, hr, hfeq⟩
  · subst hc; subst hfeq
    have hsplit : pySplitOnce f '#' = (f, none) := by
      rw [pySplitOnce, splitOnceChar_of_not_mem '#' f.data hhash]
    exact ⟨tracePayloadOf f r, by simp only [load_trace, hsplit, hopen]⟩
  · subst hc
    have hne : rs ≠ [] := fun he => by subst he; cases hr
    obtain ⟨last, hlast⟩ : ∃ last, rs.getLast? = some last := by
      cases hl : rs.getLast? with
      | none => exact absurd (List.getLast?_eq_none_iff.mp hl) hne
      | some l => exact ⟨l, rfl⟩
    by_cases hts : r.ts = ""
    · have hfe : f = fname ++ "#" := by rw [hfeq, if_neg (by simp [hts])]
      have hdata : f.data = fname.data ++ '#' :: ([] : List Char) := by
        rw [hfe, String.data_append]
      have hsplit : pySplitOnce f '#' = (fname, some "") := by
        rw [pySplitOnce, hdata, splitOnceChar_append '#' [] fname.data hhash]
      refine ⟨tracePayloadOf f last, ?_⟩
      simp only [load_trace, hsplit, hopen, hlast]
      simp
    · have hfe : f = fname ++ "#" ++ r.ts := by rw [hfeq, if_pos (by simp [hts])]
      have hdata : f.data = fname.data ++ '#' :: r.ts.data := by
        rw [hfe, String.data_append, String.data_append, List.append_assoc]
        rfl
      have hsplit : pySplitOnce f '#' = (fname, some r.ts) := by
        rw [pySplitOnce, hdata, splitOnceChar_append '#' r.ts.data fname.data hhash]
      obtain ⟨sel, hsel⟩ : ∃ sel, rs.find? (fun entry => entry.ts == r.ts) = some sel := by
        have hsome : (rs.find? (fun entry => entry.ts == r.ts)).isSome :=
          List.find?_isSome.mpr ⟨r, hr, by simp⟩
        cases hfq : rs.find? (fun entry => entry.ts == r.ts) with
        | none => rw [hfq] at hsome; cases hsome
        | some sel => exact ⟨sel, rfl⟩
      refine ⟨tracePayloadOf f sel, ?_⟩
      simp only [load_trace, hsplit, hopen, hlast, hsel]
      simp [hts]

/-! ### C10 -/

/-- C10: under filesystem invariants (unique file names, no '#' in a file
name), whenever at least one trace identifier exists, GET /api/trace/index
clamps the index into [0, total-1] and returns a payload for the clamped
index — an out-of-range index never errors — and the 404 branch is taken
exactly when the identifier list is empty. -/
theorem get_trace_clamps (dir : List (String × FileJson)) (index : Int)
    (hnames : (dir.map Prod.fst).Nodup)
    (hnohash : ∀ f ∈ dir, '#' ∉ f.1.data)
    (hne : list_trace_files dir ≠ []) :
    (∃ p, get_trace dir index
        = .ok (p, max 0 (min index (((list_trace_files dir).length : Int) - 1)),
               (list_trace_files dir).length))
    ∧ 0 ≤ max 0 (min index (((list_trace_files dir).length : Int) - 1))
    ∧ max 0 (min index (((list_trace_files dir).length : Int) - 1))
        ≤ ((list_trace_files dir).length : Int) - 1
    ∧ (∀ (d : List (String × FileJson)) (i : Int),
        get_trace d i = .error (404, "No traces found") ↔ list_trace_files d = []) := by
  have hlen : 0 < (list_trace_files dir).length := List.length_pos.mpr hne
  have hlo : (0 : Int) ≤ max 0 (min index (((list_trace_files dir).length : Int) - 1)) :=
    le_max_left 0 _
  have hhi : max 0 (min index (((list_trace_files dir).length : Int) - 1))
      ≤ ((list_trace_files dir).length : Int) - 1 := by
    apply max_le
    · omega
    · exact min_le_right _ _
  have hkn : (max 0 (min index (((list_trace_files dir).length : Int) - 1))).toNat
      < (list_trace_files dir).length := by omega
  have hmem : (list_trace_files dir).getD
      (max 0 (min index (((list_trace_files dir).length : Int) - 1))).toNat ""
      ∈ list_trace_files dir := by
    rw [List.getD_eq_getElem?_getD, List.getElem?_eq_getElem hkn, Option.getD_some]
    exact List.getElem_mem hkn
  obtain ⟨p, hp⟩ := load_trace_ok_of_mem dir hnames hnohash _ hmem
  refine ⟨⟨p, ?_⟩, hlo, hhi, ?_⟩
  · simp only [get_trace]
    rw [if_neg hne, hp]
  · intro d i
    constructor
    · intro h
      by_cases hd : list_trace_files d = []
      · exact hd
      · exfalso
        simp only [get_trace] at h
        rw [if_neg hd] at h
        split at h
        · injection h with h2
          injection h2 with ha hb
          exact absurd ha (by decide)
        · cases h
    · intro hd
      simp only [get_trace]
      rw [if_pos hd]

/-- C10 witness: the theorem at a one-file directory with the
out-of-range index 5 — the clamped index and total are returned with a
payload. -/
theorem get_trace_clamps_witness :
    ∃ p, get_trace [("trace_1_2.json", FileJson.obj sampleRec1)] 5
      = .ok (p,
          max 0 (min 5
            (((list_trace_files
                [("trace_1_2.json", FileJson.obj sampleRec1)]).length : Int) - 1)),
          (list_trace_files [("trace_1_2.json", FileJson.obj sampleRec1)]).length) :=
  (get_trace_clamps [("trace_1_2.json", FileJson.obj sampleRec1)] 5
    (by decide) (by decide) (by decide)).1
